import Mathlib

/-!
Verification of the matching and reconciliation engine of the pull-request
labeler (`src/labeler.js`).

The core consists of:
  - a glob matcher (the `Minimatch` objects built in `allFilesMatch`); the
    matcher itself comes from the external `minimatch` package, so its
    structural matching is modelled from the specification (§4.1);
  - `isMatch` / `allFilesMatch` (policy evaluator);
  - the reconciliation loop inside `run` (lines 33–42);
  - `getLabelGlobMapFromObject` (policy loader);
  - the `sync-labels` toggle derivation (`!!core.getInput("sync-labels")`).
-/

/-- One item of a bracket character class: a single character or a range. -/
inductive ClsItem where
  | single (c : Char)
  | range (lo hi : Char)
deriving DecidableEq

/-- Does a character fall under one class item? -/
def clsItemMatch (it : ClsItem) (c : Char) : Bool :=
  match it with
  | ClsItem.single d => c = d
  | ClsItem.range lo hi => lo ≤ c && c ≤ hi

/-- Does a character match a (possibly negated) bracket class? -/
def clsMatch (neg : Bool) (items : List ClsItem) (c : Char) : Bool :=
  let hit := items.any (fun it => clsItemMatch it c)
  if neg then !hit else hit

/-- Modelled from the spec: scan the items of a bracket expression `[...]`
up to the closing `]`, collecting single characters and `a-b` ranges.
Returns the items and the characters following the `]`, or `none` when the
bracket is never closed. -/
def scanClassItems : List Char → List ClsItem → Option (List ClsItem × List Char)
  | [], _ => none
  | ']' :: rest, acc => some (acc.reverse, rest)
  | c1 :: '-' :: c2 :: rest, acc =>
      if c2 = ']' then some ((ClsItem.single '-' :: ClsItem.single c1 :: acc).reverse, rest)
      else scanClassItems rest (ClsItem.range c1 c2 :: acc)
  | c :: rest, acc => scanClassItems rest (ClsItem.single c :: acc)

/-- Modelled from the spec: scan a bracket expression, recognising a leading
`!` or `^` as class negation. -/
def scanClass (ps : List Char) : Option (Bool × List ClsItem × List Char) :=
  match ps with
  | '!' :: rest => (scanClassItems rest []).map (fun r => (true, r.1, r.2))
  | '^' :: rest => (scanClassItems rest []).map (fun r => (true, r.1, r.2))
  | _ => (scanClassItems ps []).map (fun r => (false, r.1, r.2))

/-- Modelled from the spec (§4.1): matching of a single path segment against a
single glob segment. `*` matches any run of characters within the segment,
`?` matches exactly one character, `[...]` matches a character class, every
other character matches itself literally; matching is anchored (the whole
segment must be consumed). The `fuel` argument only bounds the recursion and
is always called with enough fuel to be irrelevant. Brace alternation `{a,b}`
is not modelled (no claim exercises it). -/
def segMatchF : Nat → List Char → List Char → Bool
  | 0, _, _ => false
  | _ + 1, [], s => s.isEmpty
  | f + 1, '?' :: ps, s =>
      match s with
      | [] => false
      | _ :: cs => segMatchF f ps cs
  | f + 1, '*' :: ps, s =>
      segMatchF f ps s ||
        (match s with
         | [] => false
         | _ :: cs => segMatchF f ('*' :: ps) cs)
  | f + 1, '[' :: ps, s =>
      (match scanClass ps with
       | some (neg, items, rest) =>
           match s with
           | [] => false
           | c :: cs => clsMatch neg items c && segMatchF f rest cs
       | none =>
           match s with
           | [] => false
           | c :: cs => (c = '[') && segMatchF f ps cs)
  | f + 1, p :: ps, s =>
      match s with
      | [] => false
      | c :: cs => (c = p) && segMatchF f ps cs

/-- Segment matching with sufficient fuel. -/
def segMatch (p s : List Char) : Bool :=
  segMatchF (p.length + s.length + 1) p s

/-- Modelled from the spec (§4.1): matching of a path (split into segments)
against a glob pattern (split into segments). A segment that is exactly `**`
matches any number (including zero) of whole path segments; every other
pattern segment must match exactly one path segment via `segMatch`. The
`fuel` argument only bounds the recursion and is always called with enough
fuel to be irrelevant. -/
def globSegsF : Nat → List (List Char) → List (List Char) → Bool
  | 0, _, _ => false
  | _ + 1, [], s => s.isEmpty
  | f + 1, p :: ps, s =>
      if p = ['*', '*'] then
        globSegsF f ps s ||
          (match s with
           | [] => false
           | _ :: cs => globSegsF f (p :: ps) cs)
      else
        match s with
        | [] => false
        | seg :: ss => segMatch p seg && globSegsF f ps ss

/-- Glob segment-list matching with sufficient fuel. -/
def globSegs (p s : List (List Char)) : Bool :=
  globSegsF (p.length + s.length + 1) p s

/-- Split a character list on `/`, mirroring `String.splitOn "/"`: the empty
list splits into one empty segment. -/
def splitSlashAux : List Char → List Char → List (List Char)
  | [], acc => [acc.reverse]
  | c :: cs, acc =>
      if c = '/' then acc.reverse :: splitSlashAux cs []
      else splitSlashAux cs (c :: acc)

/-- Split a character list on `/`. -/
def splitSlash (s : List Char) : List (List Char) :=
  splitSlashAux s []

/-- Modelled from the spec (§4.1): the structural (negation-free) glob match
of the external `minimatch` package. The full path must match the full
pattern; the empty pattern matches only the empty path. -/
def structuralMatch (pattern path : String) : Bool :=
  globSegs (splitSlash pattern.data) (splitSlash path.data)

/-- Modelled from the spec (§4.1): a `Minimatch` object as built by
`allFilesMatch` — the effective pattern plus the derived negation flag. -/
structure Minimatch where
  pattern : String
  negate : Bool
deriving DecidableEq

/-- Modelled from the spec (§4.1): the constructor `new Minimatch(g)`. If the
raw string's first character is `!`, the matcher is marked negated and the
remainder of the string is the effective pattern; otherwise the whole string
is the effective pattern, not negated. -/
def Minimatch.make (raw : String) : Minimatch :=
  if raw.data.head? = some '!' then
    { pattern := String.mk raw.data.tail, negate := true }
  else
    { pattern := raw, negate := false }

/-- Modelled from the spec (§4.1): `matcher.match(path)`. The negation flag
inverts the structural match result before returning. -/
def Minimatch.matches (m : Minimatch) (path : String) : Bool :=
  if m.negate then !(structuralMatch m.pattern path) else structuralMatch m.pattern path

/-- Embeds `isMatch` (labeler.js lines 157–172): a changed file matches when
at least one matcher in the list matches it. -/
def isMatch (changedFile : String) (matchers : List Minimatch) : Bool :=
  matchers.any (fun matcher => matcher.matches changedFile)

/-- Embeds `allFilesMatch` (labeler.js lines 140–155): build one matcher per
glob, then require every changed file to satisfy `isMatch`. -/
def allFilesMatch (changedFiles : List String) (globs : List String) : Bool :=
  let matchers := globs.map (fun g => Minimatch.make g)
  changedFiles.all (fun changedFile => isMatch changedFile matchers)

/-- Embeds the reconciliation loop of `run` (labeler.js lines 33–42): for each
`(label, globs)` entry in order, push the label onto `labels` when
`allFilesMatch` holds, otherwise push it onto `labelsToRemove` when the pull
request currently has the label. Returns `(labels, labelsToRemove)`. -/
def reconcile (labelGlobs : List (String × List String)) (changedFiles : List String)
    (currentLabels : List String) : List String × List String :=
  match labelGlobs with
  | [] => ([], [])
  | (label, globs) :: rest =>
      let r := reconcile rest changedFiles currentLabels
      if allFilesMatch changedFiles globs then
        (label :: r.1, r.2)
      else if currentLabels.contains label then
        (r.1, label :: r.2)
      else
        r

/-- A value of the parsed configuration document at one label, in the typed
shape the loader inspects: a string (`typeof === "string"`), an array
(`instanceof Array`), or anything else (a number, `null`, a nested object,
a boolean, …), which `getLabelGlobMapFromObject` rejects. -/
inductive ConfigValue where
  | str (s : String)
  | list (l : List String)
  | other
deriving DecidableEq

/-- The message of the error thrown by `getLabelGlobMapFromObject`
(labeler.js lines 127–129). -/
def configErrMsg (label : String) : String :=
  "found unexpected type for label " ++ label ++ " (should be string or array of globs)"

/-- Embeds `getLabelGlobMapFromObject` (labeler.js lines 117–134): iterate the
document's entries in order; a string value becomes a one-element list, an
array value is used as-is, anything else throws an `Error` naming the label.
The thrown error is modelled as `Except.error` carrying the message. -/
def getLabelGlobMapFromObject :
    List (String × ConfigValue) → Except String (List (String × List String))
  | [] => Except.ok []
  | (label, v) :: rest =>
      match v with
      | ConfigValue.str s =>
          (getLabelGlobMapFromObject rest).map (fun m => (label, [s]) :: m)
      | ConfigValue.list l =>
          (getLabelGlobMapFromObject rest).map (fun m => (label, l) :: m)
      | ConfigValue.other => Except.error (configErrMsg label)

/-- The normalization `getLabelGlobMapFromObject` applies to one well-shaped
entry: a string becomes a one-element list, an array stays as-is. -/
def normalizeConfigEntry (e : String × ConfigValue) : String × List String :=
  match e.2 with
  | ConfigValue.str s => (e.1, [s])
  | ConfigValue.list l => (e.1, l)
  | ConfigValue.other => (e.1, [])

/-- Is a configuration value of an accepted shape (string or array)? -/
def ConfigValue.wellShaped : ConfigValue → Bool
  | ConfigValue.str _ => true
  | ConfigValue.list _ => true
  | ConfigValue.other => false

/-- The invariant the spec states for loaded policies: every label maps to a
non-empty list of patterns, each pattern itself non-empty. -/
def policyInvariant (p : List (String × List String)) : Bool :=
  p.all (fun e => !e.2.isEmpty && e.2.all (fun pat => !pat.isEmpty))

/-- Embeds the error-isolating shape of `run` (labeler.js lines 28–42): parse
the document into the label→globs policy, then reconcile; the only error the
core raises is the configuration error of the loader. -/
def runCore (config : List (String × ConfigValue)) (changedFiles : List String)
    (currentLabels : List String) : Except String (List String × List String) :=
  (getLabelGlobMapFromObject config).map
    (fun labelGlobs => reconcile labelGlobs changedFiles currentLabels)

/-- Embeds `!!core.getInput("sync-labels")` (labeler.js line 10): JavaScript
double negation of a string is its truthiness, i.e. non-emptiness. -/
def syncLabelsOf (raw : String) : Bool :=
  !raw.isEmpty  -- !s for a string is emptiness, so !!s is non-emptiness

/-- Embeds the removal gate `if (syncLabels && labelsToRemove.length)`
(labeler.js line 48). -/
def removalApplied (raw : String) (labelsToRemove : List String) : Bool :=
  syncLabelsOf raw && !labelsToRemove.isEmpty

/-! ### Helper lemmas -/

theorem allFilesMatch_eq_true_iff (F P : List String) :
    allFilesMatch F P = true ↔ ∀ f ∈ F, ∃ p ∈ P, (Minimatch.make p).matches f = true := by
  simp only [allFilesMatch, isMatch, List.all_eq_true, List.any_eq_true, List.mem_map]
  constructor
  · intro h f hf
    obtain ⟨m, ⟨p, hp, rfl⟩, hm⟩ := h f hf
    exact ⟨p, hp, hm⟩
  · intro h f hf
    obtain ⟨p, hp, hm⟩ := h f hf
    exact ⟨Minimatch.make p, ⟨p, hp, rfl⟩, hm⟩

theorem contains_iff_mem {l : List String} {a : String} : l.contains a = true ↔ a ∈ l := by
  simp [List.contains, List.elem_iff]

theorem reconcile_eq_filter (lg : List (String × List String)) (files cur : List String) :
    reconcile lg files cur =
      ((lg.filter (fun e => allFilesMatch files e.2)).map Prod.fst,
       (lg.filter (fun e => !allFilesMatch files e.2 && cur.contains e.1)).map Prod.fst) := by
  induction lg with
  | nil => rfl
  | cons e rest ih =>
    obtain ⟨label, globs⟩ := e
    cases hm : allFilesMatch files globs with
    | true => simp [reconcile, ih, hm, List.filter_cons]
    | false =>
      cases hc : cur.contains label with
      | true =>
        have hmem : label ∈ cur := contains_iff_mem.mp hc
        simp [reconcile, ih, hm, hc, hmem, List.filter_cons]
      | false =>
        have hmem : label ∉ cur := fun hx => by
          rw [contains_iff_mem.mpr hx] at hc
          cases hc
        simp [reconcile, ih, hm, hc, hmem, List.filter_cons]

theorem mem_reconcile_add {lg : List (String × List String)} {files cur : List String}
    {l : String} :
    l ∈ (reconcile lg files cur).1 ↔
      ∃ globs, (l, globs) ∈ lg ∧ allFilesMatch files globs = true := by
  rw [reconcile_eq_filter]
  simp only [List.mem_map, List.mem_filter]
  constructor
  · rintro ⟨⟨a, b⟩, ⟨hab, hmb⟩, rfl⟩
    exact ⟨b, hab, hmb⟩
  · rintro ⟨g, hg, hm⟩
    exact ⟨(l, g), ⟨hg, hm⟩, rfl⟩

theorem mem_reconcile_remove {lg : List (String × List String)} {files cur : List String}
    {l : String} :
    l ∈ (reconcile lg files cur).2 ↔
      l ∈ cur ∧ ∃ globs, (l, globs) ∈ lg ∧ allFilesMatch files globs = false := by
  rw [reconcile_eq_filter]
  simp only [List.mem_map, List.mem_filter, Bool.and_eq_true, Bool.not_eq_true']
  constructor
  · rintro ⟨⟨a, b⟩, ⟨hab, hmb, hcont⟩, rfl⟩
    exact ⟨contains_iff_mem.mp hcont, b, hab, hmb⟩
  · rintro ⟨hcur, g, hg, hm⟩
    exact ⟨(l, g), ⟨hg, hm, contains_iff_mem.mpr hcur⟩, rfl⟩

theorem policy_key_unique {lg : List (String × List String)} (h : (lg.map Prod.fst).Nodup)
    {l : String} {g1 g2 : List String} (h1 : (l, g1) ∈ lg) (h2 : (l, g2) ∈ lg) : g1 = g2 := by
  have h3 := List.inj_on_of_nodup_map h h1 h2 rfl
  injection h3

/-! ### Claim theorems -/

/-- C1: `allFilesMatch(F, P)` returns `true` if and only if every file in `F`
is matched by at least one pattern in `P` (AND over files, OR over patterns
per file); in particular, when `F` is empty the result is `true` for any
`P`. -/
theorem allFilesMatch_and_over_files_or_over_patterns (F P : List String) :
    (allFilesMatch F P = true ↔ ∀ f ∈ F, ∃ p ∈ P, (Minimatch.make p).matches f = true) ∧
      allFilesMatch [] P = true :=
  ⟨allFilesMatch_eq_true_iff F P, rfl⟩

/-- C2 counterexample: for the policy `{"frontend": ["src/**", "!src/server/**"]}`,
changed files `["src/server/api.ts"]` and current labels `["frontend"]`, the
reconciliation does NOT produce `toAdd = []`, `toRemove = ["frontend"]`. -/
theorem scenario4_claimed_output_is_wrong :
    reconcile [("frontend", ["src/**", "!src/server/**"])] ["src/server/api.ts"] ["frontend"]
      ≠ (([] : List String), ["frontend"]) := by decide

/-- C2 amended: for that policy, changed files and current labels, the
reconciliation produces `toAdd = ["frontend"]` and `toRemove = []` — the file
is matched by the positive pattern `src/**`, and under OR-over-patterns the
negated pattern cannot exclude it. -/
theorem scenario4_actual_output :
    reconcile [("frontend", ["src/**", "!src/server/**"])] ["src/server/api.ts"] ["frontend"]
      = ((["frontend"] : List String), ([] : List String)) := by decide

/-- C3: the reconciler puts a label into `toAdd` iff `allFilesMatch` holds for
that label's patterns (unconditionally, even when the label is already
present), and puts a label into `toRemove` iff `allFilesMatch` fails for its
patterns and the label is present in the current label set; a failing label
not currently present triggers no action. -/
theorem reconcile_membership_characterization (lg : List (String × List String))
    (files cur : List String) (l : String) :
    (l ∈ (reconcile lg files cur).1 ↔
        ∃ globs, (l, globs) ∈ lg ∧ allFilesMatch files globs = true) ∧
      (l ∈ (reconcile lg files cur).2 ↔
        l ∈ cur ∧ ∃ globs, (l, globs) ∈ lg ∧ allFilesMatch files globs = false) :=
  ⟨mem_reconcile_add, mem_reconcile_remove⟩

/-- C4 counterexample: for the pattern `p = "!a"` and the path `x = "b"`, the
matcher built from `"!" ++ p` does not return the negation of the matcher
built from `p`: stripping only one leading `!` leaves a literal `!` in the
effective pattern instead of cancelling the negation. -/
theorem negation_double_bang_counterexample :
    ¬((Minimatch.make ("!" ++ "!a")).matches "b"
        = !((Minimatch.make "!a").matches "b")) := by decide

/-- C4 amended: for every pattern `p` whose first character is not `!` and
every path `x`, the matcher built from `"!" ++ p` returns the negation of the
matcher built from `p`. -/
theorem negation_inverts_match (p x : String) (h : p.data.head? ≠ some '!') :
    (Minimatch.make ("!" ++ p)).matches x = !((Minimatch.make p).matches x) := by
  obtain ⟨pd⟩ := p
  have hd : ("!" ++ String.mk pd).data = '!' :: pd := rfl
  simp only [Minimatch.make, hd, List.head?_cons, List.tail_cons]
  rw [if_pos trivial, if_neg h]
  simp [Minimatch.matches]

/-- C4 amended, witness at `p = "src"`, `x = "src"`. -/
theorem negation_inverts_match_witness :
    ("src".data.head? ≠ some '!') ∧
      (Minimatch.make ("!" ++ "src")).matches "src"
        = !((Minimatch.make "src").matches "src") :=
  ⟨by decide, negation_inverts_match "src" "src" (by decide)⟩

/-- C5: for every policy (whose label names are unique, as they are keys of a
`Map`), changed-file list and current label set, the computed `toAdd` and
`toRemove` lists are disjoint. -/
theorem reconcile_add_remove_disjoint (lg : List (String × List String))
    (files cur : List String) (h : (lg.map Prod.fst).Nodup) :
    List.Disjoint (reconcile lg files cur).1 (reconcile lg files cur).2 := by
  intro l h1 h2
  obtain ⟨g1, hg1, hm1⟩ := mem_reconcile_add.mp h1
  obtain ⟨-, g2, hg2, hm2⟩ := mem_reconcile_remove.mp h2
  have hgeq := policy_key_unique h hg1 hg2
  rw [hgeq] at hm1
  rw [hm1] at hm2
  cases hm2

/-- C5 witness at a concrete policy, file list and label set. -/
theorem reconcile_add_remove_disjoint_witness :
    (([("docs", ["a"])].map Prod.fst).Nodup) ∧
      List.Disjoint (reconcile [("docs", ["a"])] ["a"] ["docs"]).1
        (reconcile [("docs", ["a"])] ["a"] ["docs"]).2 :=
  ⟨by decide, reconcile_add_remove_disjoint _ _ _ (by decide)⟩

/-- C6: the policy loader maps each label whose value is a string to a
one-element pattern list and each label whose value is a list to that list
as-is; when some label has any other value shape it raises an error whose
message names an offending label and produces no policy. -/
theorem getLabelGlobMapFromObject_shapes (config : List (String × ConfigValue)) :
    ((∀ e ∈ config, ConfigValue.wellShaped e.2 = true) →
        getLabelGlobMapFromObject config = Except.ok (config.map normalizeConfigEntry)) ∧
      ((∃ e ∈ config, ConfigValue.wellShaped e.2 = false) →
        ∃ label, (label, ConfigValue.other) ∈ config ∧
          getLabelGlobMapFromObject config = Except.error (configErrMsg label)) := by
  induction config with
  | nil =>
    refine ⟨fun _ => rfl, ?_⟩
    rintro ⟨e, he, -⟩
    cases he
  | cons e rest ih =>
    obtain ⟨label, v⟩ := e
    constructor
    · intro hall
      have hv := hall (label, v) (List.mem_cons_self _ _)
      have hrest := ih.1 (fun e2 he2 => hall e2 (List.mem_cons_of_mem _ he2))
      cases v with
      | str s => simp [getLabelGlobMapFromObject, hrest, Except.map, normalizeConfigEntry]
      | list l => simp [getLabelGlobMapFromObject, hrest, Except.map, normalizeConfigEntry]
      | other => simp [ConfigValue.wellShaped] at hv
    · rintro ⟨e2, he2, hbad⟩
      cases v with
      | str s =>
        have hin : e2 ∈ rest := by
          rcases List.mem_cons.mp he2 with rfl | h2
          · simp [ConfigValue.wellShaped] at hbad
          · exact h2
        obtain ⟨lbl, hmem, herr⟩ := ih.2 ⟨e2, hin, hbad⟩
        exact ⟨lbl, List.mem_cons_of_mem _ hmem,
          by simp [getLabelGlobMapFromObject, herr, Except.map]⟩
      | list l =>
        have hin : e2 ∈ rest := by
          rcases List.mem_cons.mp he2 with rfl | h2
          · simp [ConfigValue.wellShaped] at hbad
          · exact h2
        obtain ⟨lbl, hmem, herr⟩ := ih.2 ⟨e2, hin, hbad⟩
        exact ⟨lbl, List.mem_cons_of_mem _ hmem,
          by simp [getLabelGlobMapFromObject, herr, Except.map]⟩
      | other => exact ⟨label, List.mem_cons_self _ _, rfl⟩

/-- C6 witness: a well-shaped document is normalized entry by entry, and a
document with value `42` at label `"broken"` fails naming `"broken"`. -/
theorem getLabelGlobMapFromObject_shapes_witness :
    getLabelGlobMapFromObject [("docs", ConfigValue.str "x"), ("ui", ConfigValue.list ["a", "b"])]
        = Except.ok [("docs", ["x"]), ("ui", ["a", "b"])] ∧
      ∃ label, (label, ConfigValue.other) ∈ [("broken", ConfigValue.other)] ∧
        getLabelGlobMapFromObject [("broken", ConfigValue.other)]
          = Except.error (configErrMsg label) :=
  ⟨(getLabelGlobMapFromObject_shapes _).1 (by decide),
    (getLabelGlobMapFromObject_shapes _).2 (by decide)⟩

/-- C7 counterexample: the loader accepts an empty pattern list as-is, so the
produced policy violates the non-emptiness invariant. -/
theorem policy_invariant_counterexample :
    getLabelGlobMapFromObject [("a", ConfigValue.list [])] = Except.ok [("a", [])] ∧
      policyInvariant [("a", [])] = false :=
  ⟨rfl, rfl⟩

/-- Is a configuration value well-formed in the sense of the spec invariant:
a non-empty string, or a non-empty list of non-empty strings? -/
def wellFormedValue : ConfigValue → Bool
  | ConfigValue.str s => !s.isEmpty
  | ConfigValue.list l => !l.isEmpty && l.all (fun pat => !pat.isEmpty)
  | ConfigValue.other => false

/-- C7 amended: every policy produced by the loader from a document whose
values are well-formed (non-empty strings, or non-empty lists of non-empty
strings) satisfies the invariant that every label maps to a non-empty list of
patterns, each pattern itself non-empty; the loader itself does not enforce
this. -/
theorem policyInvariant_of_wellFormed (config : List (String × ConfigValue))
    (policy : List (String × List String))
    (hwf : config.all (fun e => wellFormedValue e.2) = true)
    (hok : getLabelGlobMapFromObject config = Except.ok policy) :
    policyInvariant policy = true := by
  induction config generalizing policy with
  | nil =>
    cases hok
    rfl
  | cons e rest ih =>
    obtain ⟨label, v⟩ := e
    rw [List.all_cons, Bool.and_eq_true] at hwf
    obtain ⟨hv, hrest⟩ := hwf
    cases v with
    | str s =>
      cases hr : getLabelGlobMapFromObject rest with
      | error msg =>
        rw [getLabelGlobMapFromObject, hr] at hok
        cases hok
      | ok m =>
        rw [getLabelGlobMapFromObject, hr] at hok
        simp only [Except.map] at hok
        injection hok with hok2
        subst hok2
        have him := ih m hrest hr
        simp only [wellFormedValue] at hv
        simp only [policyInvariant] at him
        simp only [policyInvariant]
        rw [List.all_eq_true]
        intro x hx
        rcases List.mem_cons.mp hx with rfl | hxm
        · show ((!([s].isEmpty)) && ([s].all fun pat => !pat.isEmpty)) = true
          simp [hv]
        · exact List.all_eq_true.mp him x hxm
    | list l =>
      cases hr : getLabelGlobMapFromObject rest with
      | error msg =>
        rw [getLabelGlobMapFromObject, hr] at hok
        cases hok
      | ok m =>
        rw [getLabelGlobMapFromObject, hr] at hok
        simp only [Except.map] at hok
        injection hok with hok2
        subst hok2
        have him := ih m hrest hr
        simp only [wellFormedValue, Bool.and_eq_true] at hv
        simp only [policyInvariant] at him
        simp only [policyInvariant]
        rw [List.all_eq_true]
        intro x hx
        rcases List.mem_cons.mp hx with rfl | hxm
        · show ((!(l.isEmpty)) && (l.all fun pat => !pat.isEmpty)) = true
          simp [hv.1, hv.2]
        · exact List.all_eq_true.mp him x hxm
    | other => cases hv

/-- C7 amended, witness at a concrete well-formed document. -/
theorem policyInvariant_of_wellFormed_witness :
    ([("a", ConfigValue.str "x")].all (fun e => wellFormedValue e.2) = true) ∧
      getLabelGlobMapFromObject [("a", ConfigValue.str "x")] = Except.ok [("a", ["x"])] ∧
      policyInvariant [("a", ["x"])] = true :=
  ⟨by decide, rfl,
    policyInvariant_of_wellFormed [("a", ConfigValue.str "x")] [("a", ["x"])] (by decide) rfl⟩

theorem getLabelGlobMap_error_shape (config : List (String × ConfigValue)) :
    ∀ msg, getLabelGlobMapFromObject config = Except.error msg →
      ∃ label, (label, ConfigValue.other) ∈ config ∧ msg = configErrMsg label := by
  induction config with
  | nil =>
    intro msg h
    cases h
  | cons e rest ih =>
    intro msg h
    obtain ⟨label, v⟩ := e
    cases v with
    | str s =>
      cases hr : getLabelGlobMapFromObject rest with
      | error m2 =>
        rw [getLabelGlobMapFromObject, hr] at h
        simp only [Except.map] at h
        injection h with h2
        obtain ⟨lbl, hm, he⟩ := ih m2 hr
        exact ⟨lbl, List.mem_cons_of_mem _ hm, by rw [← h2]; exact he⟩
      | ok m =>
        rw [getLabelGlobMapFromObject, hr] at h
        simp only [Except.map] at h
        cases h
    | list l =>
      cases hr : getLabelGlobMapFromObject rest with
      | error m2 =>
        rw [getLabelGlobMapFromObject, hr] at h
        simp only [Except.map] at h
        injection h with h2
        obtain ⟨lbl, hm, he⟩ := ih m2 hr
        exact ⟨lbl, List.mem_cons_of_mem _ hm, by rw [← h2]; exact he⟩
      | ok m =>
        rw [getLabelGlobMapFromObject, hr] at h
        simp only [Except.map] at h
        cases h
    | other =>
      rw [getLabelGlobMapFromObject] at h
      injection h with h2
      exact ⟨label, List.mem_cons_self _ _, h2.symm⟩

/-- C8: for every well-typed input, the core either fails with the
configuration error of the loader (naming an offending label) or completes
with a (possibly empty) `toAdd`/`toRemove` pair; no other error arises. -/
theorem runCore_only_config_error (config : List (String × ConfigValue))
    (files cur : List String) :
    (∃ label, (label, ConfigValue.other) ∈ config ∧
        runCore config files cur = Except.error (configErrMsg label)) ∨
      ∃ toAdd toRemove, runCore config files cur = Except.ok (toAdd, toRemove) := by
  cases hr : getLabelGlobMapFromObject config with
  | error msg =>
    obtain ⟨lbl, hm, rfl⟩ := getLabelGlobMap_error_shape config msg hr
    exact Or.inl ⟨lbl, hm, by simp [runCore, hr, Except.map]⟩
  | ok m =>
    exact Or.inr ⟨(reconcile m files cur).1, (reconcile m files cur).2,
      by simp [runCore, hr, Except.map]⟩

/-- C9: the sync-labels toggle is the truthiness of the raw input string —
removals are enabled iff the string is non-empty — and in particular the
string `"false"` enables removal of labels. -/
theorem syncLabels_string_truthiness (raw : String) (rem : List String) (hrem : rem ≠ []) :
    (syncLabelsOf raw = true ↔ raw ≠ "") ∧
      (removalApplied raw rem = true ↔ raw ≠ "") ∧
      syncLabelsOf "false" = true := by
  have h1 : syncLabelsOf raw = true ↔ raw ≠ "" := by
    constructor
    · intro hh heq
      subst heq
      exact absurd hh (by decide)
    · intro hne
      cases he : raw.isEmpty
      · simp [syncLabelsOf, he]
      · exact absurd ((String.isEmpty_iff raw).mp he) hne
  refine ⟨h1, ?_, by decide⟩
  simp [removalApplied, Bool.and_eq_true, h1, List.isEmpty_eq_false, hrem]

/-- C9 witness at `raw = "false"`, `rem = ["docs"]`. -/
theorem syncLabels_string_truthiness_witness :
    ((["docs"] : List String) ≠ []) ∧
      (syncLabelsOf "false" = true ↔ "false" ≠ "") ∧
      (removalApplied "false" ["docs"] = true ↔ "false" ≠ "") ∧
      syncLabelsOf "false" = true :=
  ⟨by decide, syncLabels_string_truthiness "false" ["docs"] (by decide)⟩

/-- C10: the result of `allFilesMatch` depends only on the set of changed
files — any two file lists with the same members (in particular permutations
or lists with duplicated entries) give the same result for every pattern
list. -/
theorem allFilesMatch_respects_file_set (F F' P : List String)
    (h1 : ∀ x ∈ F, x ∈ F') (h2 : ∀ x ∈ F', x ∈ F) :
    allFilesMatch F P = allFilesMatch F' P := by
  rw [Bool.eq_iff_iff, allFilesMatch_eq_true_iff, allFilesMatch_eq_true_iff]
  constructor
  · intro h f hf
    exact h f (h2 f hf)
  · intro h f hf
    exact h f (h1 f hf)

/-- C10 witness: a permuted list with a duplicated entry gives the same
result. -/
theorem allFilesMatch_respects_file_set_witness :
    (∀ x ∈ ["a", "b"], x ∈ ["b", "a", "a"]) ∧ (∀ x ∈ ["b", "a", "a"], x ∈ ["a", "b"]) ∧
      allFilesMatch ["a", "b"] ["?"] = allFilesMatch ["b", "a", "a"] ["?"] :=
  ⟨by decide, by decide,
    allFilesMatch_respects_file_set ["a", "b"] ["b", "a", "a"] ["?"] (by decide) (by decide)⟩
